import Mathlib

/-!
Verification of the OSC-style address / address-pattern parsers of
`src/parser-combinator/src/lib.rs`.

Modelling conventions (shallow embedding of the Rust/nom code):

* Rust `&str` input is modelled as `List Char`; a nom `IResult<&str, T>`
  is modelled as `Option (List Char × T)` (`none` = `Err`, `some (rest, v)`
  = `Ok((rest, v))`).  All parsers in the source are "complete" parsers
  whose errors are recoverable (`Err::Error`), so a single failure value
  suffices.
* nom's `many1` guards against non-consuming inner parsers (it returns an
  error when the inner parser succeeds without consuming input).  That
  guard makes the recursion decrease on the length of the remaining
  input, which we realise with a structural fuel argument
  (`fuel = length + 1` always suffices), keeping every definition
  kernel-computable.
-/

/-- Result type of a parser: `none` is a parse error, `some (rest, v)` is a
success leaving `rest` unconsumed. -/
abbrev PResult (α : Type) := Option (List Char × α)

/-- nom `char(c)`: consume exactly the character `c` and return it. -/
def pchar (c : Char) (input : List Char) : PResult Char :=
  match input with
  | [] => none
  | x :: xs => if x = c then some (xs, x) else none

/-- nom `satisfy(pred)`: consume one character satisfying `pred`. -/
def satisfy (pred : Char → Bool) (input : List Char) : PResult Char :=
  match input with
  | [] => none
  | x :: xs => if pred x then some (xs, x) else none

/-- nom `anychar`: consume any single character. -/
def anychar (input : List Char) : PResult Char :=
  match input with
  | [] => none
  | x :: xs => some (xs, x)

/-- nom `tag(t)`: consume the exact prefix `t`. -/
def tag (t : List Char) (input : List Char) : PResult (List Char) :=
  if t.isPrefixOf input then some (input.drop t.length, t) else none

/-- nom `is_not(set)` (complete): longest non-empty run of characters none
of which belongs to `set`; errors when that run is empty. -/
def isNot (set : List Char) (input : List Char) : PResult (List Char) :=
  let run := input.takeWhile (fun c => !set.contains c)
  if run = [] then none
  else some (input.dropWhile (fun c => !set.contains c), run)

/-- nom `take_until(t)` (complete) for a one-character tag `t` (the source
only uses the one-character tags `"]"`, `","`, `"}"`): everything before
the first occurrence of `t`, leaving `t` unconsumed; errors when `t` does
not occur. -/
def takeUntil (t : Char) (input : List Char) : PResult (List Char) :=
  let pre := input.takeWhile (fun x => !(x == t))
  let post := input.dropWhile (fun x => !(x == t))
  if post = [] then none else some (post, pre)

/-- nom `all_consuming(p)`: run `p` and succeed only when it consumed the
whole input. -/
def all_consuming (p : List Char → PResult α) (input : List Char) : PResult α :=
  match p input with
  | none => none
  | some (rest, a) => if rest = [] then some (rest, a) else none

/-- The loop of nom `many1` after its first step (identical to the body of
nom `many0`'s loop): stop at the first failure of `p`; error when `p`
succeeds without consuming input (nom's infinite-loop guard, here realised
as the `rest.length < input.length` test).  The fuel argument makes the
definition structural; `fuel > input.length` always suffices because every
recursive step strictly shrinks the input. -/
def many0F (p : List Char → PResult α) : Nat → List Char → PResult (List α)
  | 0, _ => none
  | fuel + 1, input =>
    match p input with
    | none => some (input, [])
    | some (rest, a) =>
      if rest.length < input.length then
        match many0F p fuel rest with
        | none => none
        | some (rest2, as) => some (rest2, a :: as)
      else none

/-- nom `many1(p)`: `p` at least once, then the `many0F` loop. -/
def many1 (p : List Char → PResult α) (input : List Char) : PResult (List α) :=
  match p input with
  | none => none
  | some (rest, a) =>
    match many0F p (rest.length + 1) rest with
    | none => none
    | some (rest2, as) => some (rest2, a :: as)

/-- `struct Address { containers: Vec<String>, method: String }`. -/
structure Address where
  containers : List (List Char)
  method : List Char
deriving DecidableEq, Repr

/-- The character set of `address_part`'s `is_not(" \t\r\n#*,/?[]{}")`. -/
def addressNotIn : List Char :=
  [' ', '\t', '\r', '\n', '#', '*', ',', '/', '?', '[', ']', '{', '}']

/-- The character set of `parse_address_pattern`'s `is_not(" \t\r\n/")`. -/
def patternNotIn : List Char := [' ', '\t', '\r', '\n', '/']

/-- `preceded(char('/'), is_not(set))`: the common segment shape of both
parsers (`address_part` uses `addressNotIn`, the pattern segmenter uses
`patternNotIn`). -/
def slashSeg (set : List Char) (input : List Char) : PResult (List Char) :=
  match pchar '/' input with
  | none => none
  | some (rest, _) => isNot set rest

/-- `fn address_part`: `preceded(char('/'), is_not(" \t\r\n#*,/?[]{}"))`. -/
def address_part (input : List Char) : PResult (List Char) :=
  slashSeg addressNotIn input

/-- `fn parse_address`: `all_consuming(many1(address_part))`, then all
parts but the last become `containers` and the last becomes `method`
(`many1` guarantees at least one part, so the default of `getLastD` is
never used — it models the source's `expect`-justified `parts.last()`). -/
def parse_address (path : List Char) : PResult Address :=
  match all_consuming (many1 address_part) path with
  | none => none
  | some (input, parts) =>
    some (input, { containers := parts.dropLast, method := parts.getLastD [] })

/-- `enum BracketExpression { Charset(Vec<char>), Range { from, to } }`. -/
inductive BracketExpression where
  | Charset (chars : List Char)
  | Range (from_ to_ : Char)
deriving DecidableEq, Repr

/-- Helper alias so the constructor of `AddressPattern` named
`BracketExpression` can refer to the type `BracketExpression`
unambiguously. -/
abbrev BracketExprList := List BracketExpression

/-- `enum AddressPattern`. -/
inductive AddressPattern where
  | QuestionMark
  | Wildcard
  | BracketExpression (exprs : BracketExprList)
  | InvertedBracketExpression (exprs : BracketExprList)
  | Alt (a b : List Char)
  | Literal (text : List Char)
deriving DecidableEq, Repr

/-- `fn alnum_char`: `satisfy(|b| b.is_alphanum())`; nom's `AsChar`
classification is ASCII alphanumeric, which is exactly
`Char.isAlphanum`. -/
def alnum_char (input : List Char) : PResult Char :=
  satisfy (fun c => c.isAlphanum) input

/-- `fn alnum_range`: `separated_pair(alnum_char, char('-'), alnum_char)`
mapped to `Range { from, to }`. -/
def alnum_range (input : List Char) : PResult BracketExpression :=
  match alnum_char input with
  | none => none
  | some (i1, from_) =>
    match pchar '-' i1 with
    | none => none
    | some (i2, _) =>
      match alnum_char i2 with
      | none => none
      | some (i3, to_) => some (i3, BracketExpression.Range from_ to_)

/-- `fn charset`: `many1(anychar)` mapped to `Charset`. -/
def charset (input : List Char) : PResult BracketExpression :=
  match many1 anychar input with
  | none => none
  | some (rest, chars) => some (rest, BracketExpression.Charset chars)

/-- `fn bracket`: `many1(alt((alnum_range, charset)))`. -/
def bracket (input : List Char) : PResult (List BracketExpression) :=
  many1
    (fun i =>
      match alnum_range i with
      | some r => some r
      | none => charset i)
    input

/-- `fn inverted_bracket_expression`:
`delimited(tag("[!"), take_until("]"), char(']'))`, then `bracket` on the
delimited body (whose own leftover is discarded, as in the source's
`let (_, expr) = bracket(expr)?`). -/
def inverted_bracket_expression (input : List Char) : PResult AddressPattern :=
  match tag ['[', '!'] input with
  | none => none
  | some (i1, _) =>
    match takeUntil ']' i1 with
    | none => none
    | some (i2, body) =>
      match pchar ']' i2 with
      | none => none
      | some (i3, _) =>
        match bracket body with
        | none => none
        | some (_, exprs) => some (i3, AddressPattern.InvertedBracketExpression exprs)

/-- `fn bracket_expression`:
`delimited(char('['), take_until("]"), char(']'))`, then `bracket` on the
body. -/
def bracket_expression (input : List Char) : PResult AddressPattern :=
  match pchar '[' input with
  | none => none
  | some (i1, _) =>
    match takeUntil ']' i1 with
    | none => none
    | some (i2, body) =>
      match pchar ']' i2 with
      | none => none
      | some (i3, _) =>
        match bracket body with
        | none => none
        | some (_, exprs) => some (i3, AddressPattern.BracketExpression exprs)

/-- `fn bracket_pattern`: `alt((inverted_bracket_expression,
bracket_expression))`. -/
def bracket_pattern (input : List Char) : PResult AddressPattern :=
  match inverted_bracket_expression input with
  | some r => some r
  | none => bracket_expression input

/-- `fn alternative`: `delimited(char('{'),
separated_pair(take_until(","), char(','), take_until("}")), char('}'))`
mapped to `Alt`. -/
def alternative (input : List Char) : PResult AddressPattern :=
  match pchar '{' input with
  | none => none
  | some (i1, _) =>
    match takeUntil ',' i1 with
    | none => none
    | some (i2, a) =>
      match pchar ',' i2 with
      | none => none
      | some (i3, _) =>
        match takeUntil '}' i3 with
        | none => none
        | some (i4, b) =>
          match pchar '}' i4 with
          | none => none
          | some (i5, _) => some (i5, AddressPattern.Alt a b)

/-- `fn questionmark`: `char('?')` mapped to `QuestionMark`. -/
def questionmark (input : List Char) : PResult AddressPattern :=
  match pchar '?' input with
  | none => none
  | some (rest, _) => some (rest, AddressPattern.QuestionMark)

/-- `fn wildcard`: `char('*')` mapped to `Wildcard`. -/
def wildcard (input : List Char) : PResult AddressPattern :=
  match pchar '*' input with
  | none => none
  | some (rest, _) => some (rest, AddressPattern.Wildcard)

/-- `fn literal`: unconditionally succeeds, consuming the whole input as a
`Literal`. -/
def literal (input : List Char) : PResult AddressPattern :=
  some ([], AddressPattern.Literal input)

/-- `fn parse_pattern`: `alt((bracket_pattern, alternative, questionmark,
wildcard, literal))`. -/
def parse_pattern (input : List Char) : PResult AddressPattern :=
  match bracket_pattern input with
  | some r => some r
  | none =>
    match alternative input with
    | some r => some r
    | none =>
      match questionmark input with
      | some r => some r
      | none =>
        match wildcard input with
        | some r => some r
        | none => literal input

/-- The per-segment classification loop of `parse_address_pattern`:
`pattern.iter().map(|part| parse_pattern(*part).map(|(_, pat)| pat))
.collect::<Result<Vec<_>, _>>()` — note the leftover input of each
`parse_pattern` call is discarded. -/
def classifySegments : List (List Char) → Option (List AddressPattern)
  | [] => some []
  | part :: rest =>
    match parse_pattern part with
    | none => none
    | some (_, pat) =>
      match classifySegments rest with
      | none => none
      | some pats => some (pat :: pats)

/-- `fn parse_address_pattern`:
`all_consuming(many1(preceded(char('/'), is_not(" \t\r\n/"))))`, then the
classification loop.  The source `unwrap`s the collected result; the
`none` of the second branch models that panic and is proved unreachable
(see the claim about totality of `parse_pattern`). -/
def parse_address_pattern (pattern : List Char) : PResult (List AddressPattern) :=
  match all_consuming (many1 (slashSeg patternNotIn)) pattern with
  | none => none
  | some (input, parts) =>
    match classifySegments parts with
    | some pats => some (input, pats)
    | none => none

/-- The string `"/p₁/p₂…/pₙ"` built from segments `parts = [p₁, …, pₙ]`:
the shape of every input both segmenters accept. -/
def canon (parts : List (List Char)) : List Char :=
  (parts.map (fun p => '/' :: p)).flatten

/-- Validity of a segment list with respect to an exclusion set: every
segment is non-empty and avoids every excluded character. -/
def validParts (set : List Char) (parts : List (List Char)) : Prop :=
  ∀ p ∈ parts, p ≠ [] ∧ ∀ c ∈ p, set.contains c = false

instance (set : List Char) (parts : List (List Char)) : Decidable (validParts set parts) :=
  inferInstanceAs (Decidable (∀ p ∈ parts, _ ∧ _))

/-- Segments rejoined with `'/'` separators (no leading slash). -/
def sepJoin : List (List Char) → List Char
  | [] => []
  | [p] => p
  | p :: q :: qs => p ++ '/' :: sepJoin (q :: qs)

/-- The canonical string form of an `Address`: its segments rejoined with
`'/'` and prefixed with `'/'`. -/
def addressString (addr : Address) : List Char :=
  '/' :: sepJoin (addr.containers ++ [addr.method])

/-- The reserved-character set as the specification lists it (spec §3/§4.1:
space, tab, CR, LF, `#`, `*`, `,`, `/`, `?`, `[`, `]`) — used only to state
claims; note it lacks the `'{'` and `'}'` that the source excludes. -/
def specReservedChars : List Char :=
  [' ', '\t', '\r', '\n', '#', '*', ',', '/', '?', '[', ']']

/-- Printable ASCII, the formal reading of the claims' "printable". -/
def isPrintableAscii (c : Char) : Bool :=
  0x20 ≤ c.toNat && c.toNat ≤ 0x7e

/-! ### Helper lemmas about the segmenters -/

theorem takeWhile_dropWhile_part (pred : Char → Bool) :
    ∀ (part tail : List Char), (∀ c ∈ part, pred c = true) →
    (∀ c t, tail = c :: t → pred c = false) →
    (part ++ tail).takeWhile pred = part ∧ (part ++ tail).dropWhile pred = tail := by
  intro part
  induction part with
  | nil =>
    intro tail _ h2
    cases tail with
    | nil => simp
    | cons c t => simp [List.takeWhile_cons, List.dropWhile_cons, h2 c t rfl]
  | cons x xs ih =>
    intro tail h1 h2
    have hx : pred x = true := h1 x (by simp)
    have hrec := ih tail (fun c hc => h1 c (by simp [hc])) h2
    simp [List.takeWhile_cons, List.dropWhile_cons, hx, hrec.1, hrec.2]

theorem isNot_complete (set part tail : List Char) (hne : part ≠ [])
    (hpart : ∀ c ∈ part, set.contains c = false)
    (htail : ∀ c t, tail = c :: t → set.contains c = true) :
    isNot set (part ++ tail) = some (tail, part) := by
  have h := takeWhile_dropWhile_part (fun c => !set.contains c) part tail
    (fun c hc => by simp only [hpart c hc, Bool.not_false])
    (fun c t ht => by simp only [htail c t ht, Bool.not_true])
  simp only [isNot, h.1, h.2]
  simp [hne]

theorem isNot_sound (set input rest run : List Char) :
    isNot set input = some (rest, run) →
    input = run ++ rest ∧ run ≠ [] ∧ ∀ c ∈ run, set.contains c = false := by
  intro h
  simp only [isNot] at h
  split at h
  · exact absurd h (by simp)
  · rename_i hne
    obtain ⟨hrest, hrun⟩ : input.dropWhile (fun c => !set.contains c) = rest ∧
        input.takeWhile (fun c => !set.contains c) = run := by
      constructor <;> [exact congrArg Prod.fst (Option.some.inj h);
        exact congrArg Prod.snd (Option.some.inj h)]
    refine ⟨?_, ?_, ?_⟩
    · rw [← hrest, ← hrun, List.takeWhile_append_dropWhile]
    · rw [← hrun]; exact hne
    · intro c hc
      rw [← hrun] at hc
      have := List.mem_takeWhile_imp hc
      simpa using this

theorem slashSeg_sound (set input rest part : List Char) :
    slashSeg set input = some (rest, part) →
    input = '/' :: (part ++ rest) ∧ part ≠ [] ∧ ∀ c ∈ part, set.contains c = false := by
  intro h
  match input with
  | [] => simp [slashSeg, pchar] at h
  | x :: xs =>
    by_cases hx : x = '/'
    · simp only [slashSeg, pchar, if_pos hx] at h
      obtain ⟨h1, h2, h3⟩ := isNot_sound set xs rest part h
      exact ⟨by rw [hx, h1], h2, h3⟩
    · simp [slashSeg, pchar, if_neg hx] at h

theorem slashSeg_complete (set part tail : List Char) (hne : part ≠ [])
    (hpart : ∀ c ∈ part, set.contains c = false)
    (htail : ∀ c t, tail = c :: t → set.contains c = true) :
    slashSeg set ('/' :: (part ++ tail)) = some (tail, part) := by
  simp only [slashSeg, pchar, if_pos rfl]
  exact isNot_complete set part tail hne hpart htail

theorem canon_nil : canon [] = [] := rfl

theorem canon_cons (p : List Char) (ps : List (List Char)) :
    canon (p :: ps) = '/' :: (p ++ canon ps) := by
  simp [canon]

theorem canon_head (set : List Char) (hset : set.contains '/' = true)
    (ps : List (List Char)) :
    ∀ c t, canon ps = c :: t → set.contains c = true := by
  intro c t h
  cases ps with
  | nil => simp [canon_nil] at h
  | cons q qs =>
    rw [canon_cons] at h
    cases h
    exact hset

theorem many0F_slash_sound (set : List Char) :
    ∀ (fuel : Nat) (input rest : List Char) (parts : List (List Char)),
    many0F (slashSeg set) fuel input = some (rest, parts) →
    input = canon parts ++ rest ∧ validParts set parts := by
  intro fuel
  induction fuel with
  | zero => intro input rest parts h; simp [many0F] at h
  | succ f ih =>
    intro input rest parts h
    simp only [many0F] at h
    split at h
    · simp only [Option.some.injEq, Prod.mk.injEq] at h
      obtain ⟨h1, h2⟩ := h
      subst h1; subst h2
      exact ⟨by simp [canon_nil], fun p hp => absurd hp (by simp)⟩
    · rename_i r a hp
      split at h
      · rename_i hlen
        split at h
        · simp at h
        · rename_i r2 as hm
          simp only [Option.some.injEq, Prod.mk.injEq] at h
          obtain ⟨h1, h2⟩ := h
          subst h1; subst h2
          obtain ⟨hr, hv⟩ := ih r r2 as hm
          obtain ⟨hi, hane, hac⟩ := slashSeg_sound set input r a hp
          constructor
          · rw [hi, hr, canon_cons]
            simp
          · intro p hp
            cases hp with
            | head => exact ⟨hane, hac⟩
            | tail _ hmem => exact hv p hmem
      · simp at h

theorem many1_slash_sound (set input rest : List Char) (parts : List (List Char)) :
    many1 (slashSeg set) input = some (rest, parts) →
    input = canon parts ++ rest ∧ parts ≠ [] ∧ validParts set parts := by
  intro h
  simp only [many1] at h
  split at h
  · simp at h
  · rename_i r a hp
    split at h
    · simp at h
    · rename_i r2 as hm
      simp only [Option.some.injEq, Prod.mk.injEq] at h
      obtain ⟨h1, h2⟩ := h
      subst h1; subst h2
      obtain ⟨hr, hv⟩ := many0F_slash_sound set (r.length + 1) r r2 as hm
      obtain ⟨hi, hane, hac⟩ := slashSeg_sound set input r a hp
      refine ⟨?_, by simp, ?_⟩
      · rw [hi, hr, canon_cons]; simp
      · intro p hp
        cases hp with
        | head => exact ⟨hane, hac⟩
        | tail _ hmem => exact hv p hmem

theorem many0F_slash_complete (set : List Char) (hset : set.contains '/' = true) :
    ∀ (parts : List (List Char)) (fuel : Nat), (canon parts).length < fuel →
    validParts set parts →
    many0F (slashSeg set) fuel (canon parts) = some ([], parts) := by
  intro parts
  induction parts with
  | nil =>
    intro fuel hfuel _
    match fuel, hfuel with
    | f + 1, _ => simp [many0F, canon_nil, slashSeg, pchar]
  | cons p ps ih =>
    intro fuel hfuel hv
    match fuel, hfuel with
    | f + 1, hfuel =>
      obtain ⟨hpne, hpc⟩ := hv p (by simp)
      have hseg : slashSeg set (canon (p :: ps)) = some (canon ps, p) := by
        rw [canon_cons]
        exact slashSeg_complete set p (canon ps) hpne hpc (canon_head set hset ps)
      have hlen : (canon ps).length < (canon (p :: ps)).length := by
        rw [canon_cons]; simp; omega
      have hfuel2 : (canon ps).length < f := by
        have h1 : (canon (p :: ps)).length ≤ f := Nat.lt_succ_iff.mp hfuel
        exact Nat.lt_of_lt_of_le hlen h1
      have hrec := ih f hfuel2 (fun q hq => hv q (by simp [hq]))
      simp only [many0F, hseg, if_pos hlen, hrec]

theorem many1_slash_complete (set : List Char) (hset : set.contains '/' = true)
    (parts : List (List Char)) (hne : parts ≠ []) (hv : validParts set parts) :
    many1 (slashSeg set) (canon parts) = some ([], parts) := by
  match parts, hne with
  | p :: ps, _ =>
    obtain ⟨hpne, hpc⟩ := hv p (by simp)
    have hseg : slashSeg set (canon (p :: ps)) = some (canon ps, p) := by
      rw [canon_cons]
      exact slashSeg_complete set p (canon ps) hpne hpc (canon_head set hset ps)
    have hrec := many0F_slash_complete set hset ps ((canon ps).length + 1)
      (Nat.lt_succ_self _) (fun q hq => hv q (by simp [hq]))
    simp only [many1, hseg, hrec]

/-! ### Characterisation of the two top-level parsers -/

theorem all_consuming_sound (p : List Char → PResult α) (input rest : List Char) (a : α) :
    all_consuming p input = some (rest, a) → rest = [] ∧ p input = some ([], a) := by
  intro h
  simp only [all_consuming] at h
  split at h
  · simp at h
  · rename_i r b hp
    split at h
    · rename_i hr
      simp only [Option.some.injEq, Prod.mk.injEq] at h
      obtain ⟨h1, h2⟩ := h
      subst hr; subst h2
      exact ⟨h1.symm, hp⟩
    · simp at h

theorem all_consuming_complete (p : List Char → PResult α) (input : List Char) (a : α) :
    p input = some ([], a) → all_consuming p input = some ([], a) := by
  intro h
  simp [all_consuming, h]

theorem parse_address_sound (path rest : List Char) (addr : Address) :
    parse_address path = some (rest, addr) →
    rest = [] ∧ ∃ parts : List (List Char), parts ≠ [] ∧ validParts addressNotIn parts ∧
      path = canon parts ∧ addr = ⟨parts.dropLast, parts.getLastD []⟩ := by
  intro h
  unfold parse_address at h
  split at h
  · simp at h
  · rename_i r parts hac
    simp only [Option.some.injEq, Prod.mk.injEq] at h
    obtain ⟨h1, h2⟩ := h
    obtain ⟨hr, hm⟩ := all_consuming_sound (many1 address_part) path r parts hac
    subst h1
    obtain ⟨hp, hne, hv⟩ := many1_slash_sound addressNotIn path [] parts hm
    exact ⟨hr, parts, hne, hv, by simpa using hp, h2.symm⟩

theorem parse_address_complete (parts : List (List Char)) (hne : parts ≠ [])
    (hv : validParts addressNotIn parts) :
    parse_address (canon parts) = some ([], ⟨parts.dropLast, parts.getLastD []⟩) := by
  have hm : many1 address_part (canon parts) = some ([], parts) :=
    many1_slash_complete addressNotIn (by decide) parts hne hv
  have hac := all_consuming_complete (many1 address_part) (canon parts) parts hm
  unfold parse_address
  rw [hac]

theorem parse_pattern_isSome (s : List Char) : (parse_pattern s).isSome = true := by
  simp only [parse_pattern]
  split
  · rfl
  · split
    · rfl
    · split
      · rfl
      · split
        · rfl
        · rfl

theorem classifySegments_isSome (parts : List (List Char)) :
    ∃ pats : List AddressPattern, classifySegments parts = some pats ∧
      pats.length = parts.length := by
  induction parts with
  | nil => exact ⟨[], rfl, rfl⟩
  | cons part rest ih =>
    obtain ⟨pats, hp, hlen⟩ := ih
    have htot := parse_pattern_isSome part
    cases hpp : parse_pattern part with
    | none => rw [hpp] at htot; simp at htot
    | some rp =>
      obtain ⟨r, pat⟩ := rp
      refine ⟨pat :: pats, ?_, by simp [hlen]⟩
      simp only [classifySegments, hpp, hp]

theorem parse_address_pattern_sound (s rest : List Char) (pats : List AddressPattern) :
    parse_address_pattern s = some (rest, pats) →
    rest = [] ∧ ∃ parts : List (List Char), parts ≠ [] ∧ validParts patternNotIn parts ∧
      s = canon parts ∧ classifySegments parts = some pats := by
  intro h
  unfold parse_address_pattern at h
  split at h
  · simp at h
  · rename_i r parts hac
    split at h
    · rename_i pats2 hc
      simp only [Option.some.injEq, Prod.mk.injEq] at h
      obtain ⟨h1, h2⟩ := h
      obtain ⟨hr, hm⟩ := all_consuming_sound (many1 (slashSeg patternNotIn)) s r parts hac
      subst h1
      obtain ⟨hp, hne, hv⟩ := many1_slash_sound patternNotIn s [] parts hm
      exact ⟨hr, parts, hne, hv, by simpa using hp, by rw [hc, h2]⟩
    · simp at h

theorem parse_address_pattern_complete (parts : List (List Char)) (hne : parts ≠ [])
    (hv : validParts patternNotIn parts) :
    ∃ pats : List AddressPattern, parse_address_pattern (canon parts) = some ([], pats) ∧
      pats.length = parts.length := by
  have hm : many1 (slashSeg patternNotIn) (canon parts) = some ([], parts) :=
    many1_slash_complete patternNotIn (by decide) parts hne hv
  have hac := all_consuming_complete (many1 (slashSeg patternNotIn)) (canon parts) parts hm
  obtain ⟨pats, hc, hlen⟩ := classifySegments_isSome parts
  refine ⟨pats, ?_, hlen⟩
  unfold parse_address_pattern
  rw [hac]
  simp [hc]

/-! ### Further helper lemmas -/

theorem dropLast_append_getLastD :
    ∀ (l : List (List Char)) (d : List Char), l ≠ [] →
    l.dropLast ++ [l.getLastD d] = l := by
  intro l
  induction l with
  | nil => intro d h; exact absurd rfl h
  | cons x xs ih =>
    intro d _
    cases xs with
    | nil => rfl
    | cons y ys =>
      have h := ih y (by simp)
      simp only [List.getLastD_cons] at h
      simp only [List.dropLast_cons₂, List.getLastD_cons]
      rw [List.cons_append, h]

theorem canon_eq_sepJoin : ∀ (p : List Char) (ps : List (List Char)),
    canon (p :: ps) = '/' :: sepJoin (p :: ps) := by
  intro p ps
  induction ps generalizing p with
  | nil => simp [canon_cons, canon_nil, sepJoin]
  | cons q qs ih =>
    rw [canon_cons, ih q, sepJoin]

theorem addressString_eq_canon (addr : Address) :
    addressString addr = canon (addr.containers ++ [addr.method]) := by
  have hne : addr.containers ++ [addr.method] ≠ [] := by simp
  match h : addr.containers ++ [addr.method], hne with
  | p :: ps, _ =>
    rw [addressString, h, canon_eq_sepJoin]

theorem parse_address_bare_metachar (path : List Char) (c : Char)
    (hc : c ∈ path) (hm : c ∈ ['*', '?', '[', ']', ',', '#']) :
    parse_address path = none := by
  cases h : parse_address path with
  | none => rfl
  | some r =>
    exfalso
    obtain ⟨rest, addr⟩ := r
    obtain ⟨-, parts, -, hv, hpath, -⟩ := parse_address_sound path rest addr h
    subst hpath
    simp only [canon, List.mem_flatten] at hc
    obtain ⟨l, hl, hcl⟩ := hc
    simp only [List.mem_map] at hl
    obtain ⟨p, hp, rfl⟩ := hl
    have hcontains : addressNotIn.contains c = true ∧ c ≠ '/' := by
      fin_cases hm <;> exact ⟨by decide, by decide⟩
    cases hcl with
    | head => exact hcontains.2 rfl
    | tail _ hmem =>
      have := (hv p hp).2 c hmem
      rw [hcontains.1] at this
      exact Bool.true_eq_false.mp this

theorem many0F_anychar : ∀ (fuel : Nat) (s : List Char), s.length < fuel →
    many0F anychar fuel s = some ([], s) := by
  intro fuel
  induction fuel with
  | zero => intro s h; omega
  | succ f ih =>
    intro s h
    cases s with
    | nil => simp [many0F, anychar]
    | cons c cs =>
      have hlen : cs.length < (c :: cs).length := by simp
      have hf : cs.length < f := by simp at h; omega
      simp only [many0F, anychar, if_pos hlen, ih cs hf]

theorem charset_consumes_all (s : List Char) (hne : s ≠ []) :
    charset s = some ([], BracketExpression.Charset s) := by
  match s, hne with
  | c :: cs, _ =>
    have h0 := many0F_anychar (cs.length + 1) cs (Nat.lt_succ_self _)
    simp only [charset, many1, anychar, h0]

theorem takeUntil_complete (t : Char) (pre post : List Char) (hpre : t ∉ pre)
    (hpost : ∀ c tl, post = c :: tl → c = t) :
    takeUntil t (pre ++ post) = if post = [] then none else some (post, pre) := by
  have h := takeWhile_dropWhile_part (fun x => !(x == t)) pre post
    (fun c hc => by
      have : c ≠ t := fun hct => hpre (hct ▸ hc)
      simp [this])
    (fun c tl htl => by simp [hpost c tl htl])
  simp only [takeUntil, h.1, h.2]

theorem alternative_general (a b : List Char) (ha : ',' ∉ a) (hb : '}' ∉ b) :
    alternative ('{' :: (a ++ ',' :: (b ++ ['}']))) = some ([], AddressPattern.Alt a b) := by
  have h1 : takeUntil ',' (a ++ ',' :: (b ++ ['}'])) = some (',' :: (b ++ ['}']), a) := by
    have := takeUntil_complete ',' a (',' :: (b ++ ['}'])) ha
      (fun c tl h => by cases h; rfl)
    simpa using this
  have h2 : takeUntil '}' (b ++ ['}']) = some (['}'], b) := by
    have := takeUntil_complete '}' b ['}'] hb (fun c tl h => by cases h; rfl)
    simpa using this
  simp [alternative, pchar, h1, h2]

theorem parse_pattern_qmark (s : List Char) :
    parse_pattern ('?' :: s) = some (s, AddressPattern.QuestionMark) := by
  simp [parse_pattern, bracket_pattern, inverted_bracket_expression, bracket_expression,
    alternative, questionmark, tag, pchar, List.isPrefixOf]

theorem parse_pattern_wildcard (s : List Char) :
    parse_pattern ('*' :: s) = some (s, AddressPattern.Wildcard) := by
  simp [parse_pattern, bracket_pattern, inverted_bracket_expression, bracket_expression,
    alternative, questionmark, wildcard, tag, pchar, List.isPrefixOf]

theorem parse_pattern_literal_fallback (seg : List Char)
    (h1 : bracket_pattern seg = none) (h2 : alternative seg = none)
    (h3 : questionmark seg = none) (h4 : wildcard seg = none) :
    parse_pattern seg = some ([], AddressPattern.Literal seg) := by
  simp [parse_pattern, h1, h2, h3, h4, literal]

/-! ### Claim theorems -/

/-- Claim C1: the spec (and the repository's own unit test) state that
parsing `"/oscillator/[0-9]/*/[!1234]/{frequency,phase}/x?"` yields seven
patterns ending `Literal("x"), QuestionMark`.  The code actually yields
six patterns: the trailing segment `"x?"` is classified by the `literal`
catch-all as `Literal("x?")` (the `questionmark` branch needs `'?'` at
the start of the segment), so the claimed result is not what the code
returns — the code contradicts its own test. -/
theorem claim_C1_code_result :
    parse_address_pattern ("/oscillator/[0-9]/*/[!1234]/{frequency,phase}/x?".data) =
      some ([], [AddressPattern.Literal ("oscillator".data),
        AddressPattern.BracketExpression [BracketExpression.Range '0' '9'],
        AddressPattern.Wildcard,
        AddressPattern.InvertedBracketExpression
          [BracketExpression.Charset ['1', '2', '3', '4']],
        AddressPattern.Alt ("frequency".data) ("phase".data),
        AddressPattern.Literal ("x?".data)]) ∧
    parse_address_pattern ("/oscillator/[0-9]/*/[!1234]/{frequency,phase}/x?".data) ≠
      some ([], [AddressPattern.Literal ("oscillator".data),
        AddressPattern.BracketExpression [BracketExpression.Range '0' '9'],
        AddressPattern.Wildcard,
        AddressPattern.InvertedBracketExpression
          [BracketExpression.Charset ['1', '2', '3', '4']],
        AddressPattern.Alt ("frequency".data) ("phase".data),
        AddressPattern.Literal ("x".data), AddressPattern.QuestionMark]) := by
  constructor
  · decide
  · decide

/-- Claim C2 counterexample: the input `"/{"` consists of one
`'/'`-prefixed non-empty segment whose single character `'{'` is
printable and lies outside the spec's reserved set, yet `parse_address`
fails — the source's `is_not` set additionally excludes `'{'` and
`'}'`. -/
theorem claim_C2_counterexample :
    parse_address ['/', '{'] = none ∧
    isPrintableAscii '{' = true ∧
    specReservedChars.contains '{' = false := by
  decide

/-- Claim C2 as amended: with the reserved set extended by `'{'` and
`'}'` (i.e. exactly the source's `is_not` set `addressNotIn`), every
input made of `'/'`-prefixed non-empty segments of printable
non-reserved characters parses successfully into all-but-last segments
as `containers` and the last segment as `method`. -/
theorem claim_C2_amended (parts : List (List Char)) (hne : parts ≠ [])
    (hv : ∀ p ∈ parts, p ≠ [] ∧ ∀ c ∈ p, isPrintableAscii c = true ∧
      addressNotIn.contains c = false) :
    parse_address (canon parts) =
      some ([], ⟨parts.dropLast, parts.getLastD []⟩) :=
  parse_address_complete parts hne
    (fun p hp => ⟨(hv p hp).1, fun c hc => ((hv p hp).2 c hc).2⟩)

theorem claim_C2_witness :
    (([['a'], ['b']] : List (List Char)) ≠ [] ∧
      ∀ p ∈ ([['a'], ['b']] : List (List Char)), p ≠ [] ∧
        ∀ c ∈ p, isPrintableAscii c = true ∧ addressNotIn.contains c = false) ∧
    parse_address (canon [['a'], ['b']]) = some ([], ⟨[['a']], ['b']⟩) :=
  ⟨⟨by decide, by decide⟩, claim_C2_amended [['a'], ['b']] (by decide) (by decide)⟩

/-- Claim C3: `parse_address` fails on the empty string, `"/"`, `"//"`
and `"//container/method"`; it fails on any input containing a bare
`'*'`, `'?'`, `'['`, `']'`, `','` or `'#'`; any success consumes the
whole input; and success happens exactly on the strings that decompose
into one or more `'/'`-prefixed non-empty segments free of the reserved
characters. -/
theorem claim_C3 :
    parse_address [] = none ∧
    parse_address ['/'] = none ∧
    parse_address ['/', '/'] = none ∧
    parse_address ("//container/method".data) = none ∧
    (∀ (path : List Char) (c : Char), c ∈ path →
      c ∈ ['*', '?', '[', ']', ',', '#'] → parse_address path = none) ∧
    (∀ (path rest : List Char) (addr : Address),
      parse_address path = some (rest, addr) → rest = []) ∧
    (∀ path : List Char, (∃ r, parse_address path = some r) ↔
      ∃ parts : List (List Char), parts ≠ [] ∧ validParts addressNotIn parts ∧
        path = canon parts) := by
  refine ⟨by decide, by decide, by decide, by decide, ?_, ?_, ?_⟩
  · exact fun path c hc hm => parse_address_bare_metachar path c hc hm
  · exact fun path rest addr h => (parse_address_sound path rest addr h).1
  · intro path
    constructor
    · rintro ⟨⟨rest, addr⟩, h⟩
      obtain ⟨-, parts, hne, hv, hpath, -⟩ := parse_address_sound path rest addr h
      exact ⟨parts, hne, hv, hpath⟩
    · rintro ⟨parts, hne, hv, rfl⟩
      exact ⟨([], ⟨parts.dropLast, parts.getLastD []⟩),
        parse_address_complete parts hne hv⟩

theorem claim_C3_witness :
    ('*' ∈ (['/', 'a', '*'] : List Char) ∧
      '*' ∈ (['*', '?', '[', ']', ',', '#'] : List Char)) ∧
    parse_address ['/', 'a', '*'] = none :=
  ⟨⟨by decide, by decide⟩,
    claim_C3.2.2.2.2.1 ['/', 'a', '*'] '*' (by decide) (by decide)⟩

/-- Claim C4 counterexample: the segment `"[]"` has an empty bracket
body, so the bracket attempt fails (`bracket_pattern` returns an error),
but `parse_address_pattern "/[]"` does not fail with `MalformedPattern`
— the `alt` falls through to the `literal` catch-all and the input is
accepted as `Literal("[]")`. -/
theorem claim_C4_counterexample :
    bracket_pattern ("[]".data) = none ∧
    parse_address_pattern ("/[]".data) ≠ none ∧
    parse_address_pattern ("/[]".data) =
      some ([], [AddressPattern.Literal ("[]".data)]) := by
  decide

/-- Claim C4 as amended: a segment whose bracket body is syntactically
invalid (empty class body such as `"[]"`, or unbalanced delimiters such
as `"[abc"`) makes the bracket attempt fail, and classification then
falls back to accepting the whole segment as a `Literal`;
`parse_address_pattern` succeeds on such inputs rather than failing. -/
theorem claim_C4_amended :
    (∀ seg : List Char, bracket_pattern seg = none → alternative seg = none →
      questionmark seg = none → wildcard seg = none →
      parse_pattern seg = some ([], AddressPattern.Literal seg)) ∧
    bracket_pattern ("[]".data) = none ∧
    bracket_pattern ("[abc".data) = none ∧
    parse_address_pattern ("/[]".data) =
      some ([], [AddressPattern.Literal ("[]".data)]) ∧
    parse_address_pattern ("/[abc".data) =
      some ([], [AddressPattern.Literal ("[abc".data)]) :=
  ⟨parse_pattern_literal_fallback, by decide, by decide, by decide, by decide⟩

theorem claim_C4_witness :
    (bracket_pattern ("[]".data) = none ∧ alternative ("[]".data) = none ∧
      questionmark ("[]".data) = none ∧ wildcard ("[]".data) = none) ∧
    parse_pattern ("[]".data) = some ([], AddressPattern.Literal ("[]".data)) :=
  ⟨⟨by decide, by decide, by decide, by decide⟩,
    claim_C4_amended.1 ("[]".data) (by decide) (by decide) (by decide) (by decide)⟩

/-- Claim C5 counterexample: the segment `"?abc"` is classified as
`QuestionMark` and the remaining text `"abc"` is silently discarded
(`parse_pattern` leaves `"abc"` unconsumed and the per-segment loop of
`parse_address_pattern` drops that leftover), contradicting the claim
that `QuestionMark` is produced only for the whole segment `"?"`. -/
theorem claim_C5_counterexample :
    parse_pattern ("?abc".data) = some ("abc".data, AddressPattern.QuestionMark) ∧
    parse_address_pattern ("/?abc".data) = some ([], [AddressPattern.QuestionMark]) := by
  decide

/-- Claim C5 as amended: classification assigns exactly one top-level
variant per segment, but it does not account for the whole segment text:
any segment beginning with `'?'` classifies as `QuestionMark` and any
segment beginning with `'*'` classifies as `Wildcard`, with the rest of
the segment silently discarded by `parse_address_pattern`. -/
theorem claim_C5_amended :
    (∀ s : List Char, parse_pattern ('?' :: s) = some (s, AddressPattern.QuestionMark)) ∧
    (∀ s : List Char, parse_pattern ('*' :: s) = some (s, AddressPattern.Wildcard)) ∧
    parse_address_pattern ("/?abc".data) = some ([], [AddressPattern.QuestionMark]) :=
  ⟨parse_pattern_qmark, parse_pattern_wildcard, by decide⟩

/-- Claim C6 counterexample: the bracket body `"a-z0-9"` does not parse
as `Range{a,z}` followed by `Charset{0,9}` — after `Range{a,z}` the
range parser matches again on `"0-9"`, yielding `Range{0,9}`. -/
theorem claim_C6_counterexample :
    bracket ("a-z0-9".data) =
      some ([], [BracketExpression.Range 'a' 'z', BracketExpression.Range '0' '9']) ∧
    bracket ("a-z0-9".data) ≠
      some ([], [BracketExpression.Range 'a' 'z', BracketExpression.Charset ['0', '9']]) := by
  decide

/-- Claim C6 as amended: the bracket-body parser repeatedly attempts an
alphanumeric range first and otherwise consumes all remaining characters
as one trailing `Charset` (never re-segmented); consequently `"a-z0-9"`
parses as `Range{a,z}` followed by `Range{0,9}` (a second range, not a
charset), while `"ab-c"` — where the range attempt fails at the start —
is one `Charset` of all four characters. -/
theorem claim_C6_amended :
    (∀ s : List Char, s ≠ [] → charset s = some ([], BracketExpression.Charset s)) ∧
    bracket ("a-z0-9".data) =
      some ([], [BracketExpression.Range 'a' 'z', BracketExpression.Range '0' '9']) ∧
    bracket ("ab-c".data) = some ([], [BracketExpression.Charset ("ab-c".data)]) :=
  ⟨charset_consumes_all, by decide, by decide⟩

theorem claim_C6_witness :
    (['x', 'y'] : List Char) ≠ [] ∧
    charset ['x', 'y'] = some ([], BracketExpression.Charset ['x', 'y']) :=
  ⟨by decide, claim_C6_amended.1 ['x', 'y'] (by decide)⟩

/-- Claim C7: an alternation `{a,b}` splits its body at the first comma
into exactly two branches, and any further commas are absorbed verbatim
into the second branch, so `"{a,b,c}"` yields `Alt("a", "b,c")`. -/
theorem claim_C7 :
    (∀ a b : List Char, ',' ∉ a → '}' ∉ b →
      alternative ('{' :: (a ++ ',' :: (b ++ ['}']))) =
        some ([], AddressPattern.Alt a b)) ∧
    parse_address_pattern ("/{a,b,c}".data) =
      some ([], [AddressPattern.Alt ("a".data) ("b,c".data)]) :=
  ⟨alternative_general, by decide⟩

theorem claim_C7_witness :
    (',' ∉ (['a'] : List Char) ∧ '}' ∉ (['b', ',', 'c'] : List Char)) ∧
    alternative ('{' :: (['a'] ++ ',' :: (['b', ',', 'c'] ++ ['}']))) =
      some ([], AddressPattern.Alt ['a'] ['b', ',', 'c']) :=
  ⟨⟨by decide, by decide⟩, claim_C7.1 ['a'] ['b', ',', 'c'] (by decide) (by decide)⟩

/-- Claim C8: round-trip idempotence — re-parsing the canonical string
form of a successfully parsed `Address` (its segments rejoined with
`'/'` and prefixed with `'/'`) succeeds and yields the same `Address`. -/
theorem claim_C8 (path rest : List Char) (addr : Address)
    (h : parse_address path = some (rest, addr)) :
    parse_address (addressString addr) = some ([], addr) := by
  obtain ⟨-, parts, hne, hv, -, haddr⟩ := parse_address_sound path rest addr h
  subst haddr
  have hparts : (⟨parts.dropLast, parts.getLastD []⟩ : Address).containers ++
      [(⟨parts.dropLast, parts.getLastD []⟩ : Address).method] = parts := by
    simpa using dropLast_append_getLastD parts [] hne
  rw [addressString_eq_canon, hparts]
  exact parse_address_complete parts hne hv

theorem claim_C8_witness :
    parse_address ['/', 'a'] = some ([], ⟨[], ['a']⟩) ∧
    parse_address (addressString ⟨[], ['a']⟩) = some ([], ⟨[], ['a']⟩) :=
  ⟨by decide, claim_C8 ['/', 'a'] [] ⟨[], ['a']⟩ (by decide)⟩

/-- Claim C9: pattern segmentation excludes only space, tab, CR, LF and
`'/'`, so the metacharacters are permitted inside a pattern segment and
any non-empty segments over the complement parse successfully (one
pattern per segment); while the at-least-one-segment, non-empty-segment
and all-input-consumed failure conditions still apply. -/
theorem claim_C9 :
    (∀ c ∈ (['*', '?', '[', ']', '{', '}', ',', '#'] : List Char),
      patternNotIn.contains c = false) ∧
    (∀ parts : List (List Char), parts ≠ [] → validParts patternNotIn parts →
      ∃ pats : List AddressPattern,
        parse_address_pattern (canon parts) = some ([], pats) ∧
        pats.length = parts.length) ∧
    parse_address_pattern [] = none ∧
    parse_address_pattern ['/'] = none ∧
    parse_address_pattern ['/', '/'] = none ∧
    parse_address_pattern ("//a/b".data) = none ∧
    (∀ (s rest : List Char) (pats : List AddressPattern),
      parse_address_pattern s = some (rest, pats) → rest = []) := by
  refine ⟨by decide, parse_address_pattern_complete, by decide, by decide,
    by decide, by decide, ?_⟩
  exact fun s rest pats h => (parse_address_pattern_sound s rest pats h).1

theorem claim_C9_witness :
    (([['*', 'a']] : List (List Char)) ≠ [] ∧ validParts patternNotIn [['*', 'a']]) ∧
    ∃ pats : List AddressPattern,
      parse_address_pattern (canon [['*', 'a']]) = some ([], pats) ∧
      pats.length = ([['*', 'a']] : List (List Char)).length :=
  ⟨⟨by decide, by decide⟩, claim_C9.2.1 [['*', 'a']] (by decide) (by decide)⟩

/-- Claim C10: `parse_pattern` never fails (the `literal` branch is a
catch-all), the per-segment classification loop therefore never returns
an error, and whenever segmentation succeeds `parse_address_pattern`
succeeds — the source's `unwrap` of the collected classification results
is never reached with an error value, so the function never panics. -/
theorem claim_C10 :
    (∀ s : List Char, (parse_pattern s).isSome = true) ∧
    (∀ parts : List (List Char), (classifySegments parts).isSome = true) ∧
    (∀ (pattern rest : List Char) (parts : List (List Char)),
      all_consuming (many1 (slashSeg patternNotIn)) pattern = some (rest, parts) →
      (parse_address_pattern pattern).isSome = true) := by
  refine ⟨parse_pattern_isSome, ?_, ?_⟩
  · intro parts
    obtain ⟨pats, hc, -⟩ := classifySegments_isSome parts
    simp [hc]
  · intro pattern rest parts h
    obtain ⟨pats, hc, -⟩ := classifySegments_isSome parts
    unfold parse_address_pattern
    rw [h]
    simp [hc]

theorem claim_C10_witness :
    all_consuming (many1 (slashSeg patternNotIn)) ['/', '?'] = some ([], [['?']]) ∧
    (parse_address_pattern ['/', '?']).isSome = true :=
  ⟨by decide, claim_C10.2.2 ['/', '?'] [] [['?']] (by decide)⟩
